import Mathlib

/-!
Verification of the flet-storage repository: a namespaced key-value adapter
(`src/flet_storage/flet_storage.py`, class `FletStorage`) over the flet
`SharedPreferences` backend, plus the free-function variant
(`src/flet_storage/base.py`: `save` / `load`).

Modelling conventions (shallow embedding):
* Python strings are `List Char` (`Str`).
* JSON texts are modelled by their parse trees: a stored payload is either
  `Payload.valid j` (a text whose JSON parse is the tree `j`) or
  `Payload.invalid detail` (a text that is not valid JSON; `detail` is the
  `json.JSONDecodeError` message).  Serialisation is therefore a function
  into `JVal` and parsing of a valid payload always yields its tree.
* Python numbers are modelled as `Int` (no claim depends on floats).
* The backend (`ft.SharedPreferences`) is an association list from physical
  keys to payloads; `set` overwrites, `get_keys pfx` returns the stored keys
  having `pfx` as a string prefix, order unspecified.
* Exceptions become `Except PyErr`; `PyErr.keyError` / `valueError` /
  `typeError` model Python's `KeyError` / `ValueError` / `TypeError`.
  `get`'s `except json.JSONDecodeError` clause corresponds exactly to the
  `Payload.invalid` case (tree decoding raises only `KeyError`/`TypeError`,
  never `JSONDecodeError`).
* `asyncio.gather` in `clear` issues removals of distinct keys, which
  commute, so it is modelled as a sequential fold.
-/

abbrev Str := List Char

/-- The `"__type__"` marker key used by `_set_default` / `_object_hook`. -/
def tagKey : Str := "__type__".toList

/-- The `"values"` key used by `_set_default` / `_object_hook`. -/
def valuesKey : Str := "values".toList

/-- The `"set"` tag value. -/
def setTag : Str := "set".toList

/-- JSON parse trees (the JSON texts the backend stores, up to parsing). -/
inductive JVal where
  | null
  | jbool (b : Bool)
  | num (n : Int)
  | str (s : Str)
  | arr (xs : List JVal)
  | obj (fs : List (Str × JVal))

/-- Python values handled by the adapter: dict, list, str, int, bool, None
and set.  A `pset` carries its elements in iteration order. -/
inductive PVal where
  | pnone
  | pbool (b : Bool)
  | pint (n : Int)
  | pstr (s : Str)
  | plist (xs : List PVal)
  | pdict (fs : List (Str × PVal))
  | pset (xs : List PVal)

/-- Python exceptions that the modelled code can raise. -/
inductive PyErr where
  | keyError (msg : Str)
  | valueError (msg : Str)
  | typeError
deriving Repr

mutual

/-- `json.dumps(obj, default=FletStorage._set_default)`: the JSON tree of the
serialised value.  `_set_default` turns a `set` into
`{"__type__": "set", "values": list(obj)}`; everything else maps directly. -/
def dumpsJ : PVal → JVal
  | .pnone => .null
  | .pbool b => .jbool b
  | .pint n => .num n
  | .pstr s => .str s
  | .plist xs => .arr (dumpsList xs)
  | .pdict fs => .obj (dumpsFields fs)
  | .pset xs => .obj [(tagKey, .str setTag), (valuesKey, .arr (dumpsList xs))]

def dumpsList : List PVal → List JVal
  | [] => []
  | x :: xs => dumpsJ x :: dumpsList xs

def dumpsFields : List (Str × PVal) → List (Str × JVal)
  | [] => []
  | (k, v) :: fs => (k, dumpsJ v) :: dumpsFields fs

end

/-- Whether a Python value is hashable (may be an element of a `set`). -/
def hashablePy : PVal → Bool
  | .pnone => true
  | .pbool _ => true
  | .pint _ => true
  | .pstr _ => true
  | .plist _ => false
  | .pdict _ => false
  | .pset _ => false

/-- Python's `set(x)` constructor as used by `_object_hook`: iterates `x`
(lists and sets by elements, strings by characters, dicts by keys) and
raises `TypeError` on non-iterables or unhashable elements. -/
def pySet : PVal → Except PyErr PVal
  | .plist xs => if xs.all hashablePy then .ok (.pset xs) else .error .typeError
  | .pset xs => .ok (.pset xs)
  | .pstr s => .ok (.pset (s.map (fun c => .pstr [c])))
  | .pdict fs => .ok (.pset (fs.map (fun f => .pstr f.1)))
  | .pnone => .error .typeError
  | .pbool _ => .error .typeError
  | .pint _ => .error .typeError

/-- First-match association lookup on decoded dict fields. -/
def lookupF (fs : List (Str × PVal)) (k : Str) : Option PVal :=
  (fs.find? (fun f => decide (f.1 = k))).map (fun f => f.2)

/-- One step of Python dict construction: a later binding of an existing key
overwrites its value in place, a new key is appended. -/
def insertField (acc : List (Str × PVal)) (kv : Str × PVal) : List (Str × PVal) :=
  if acc.any (fun f => decide (f.1 = kv.1)) then
    acc.map (fun f => if decide (f.1 = kv.1) then (f.1, kv.2) else f)
  else acc ++ [kv]

/-- Build a Python dict from a field list as `json.loads` does (first
occurrence keeps its position, last occurrence keeps its value). -/
def dedupFields (fs : List (Str × PVal)) : List (Str × PVal) :=
  fs.foldl insertField []

/-- The test `dct.get("__type__") == "set"` from `_object_hook`. -/
def isSetTagged (fs : List (Str × PVal)) : Bool :=
  match lookupF fs tagKey with
  | some (.pstr s) => decide (s = setTag)
  | _ => false

/-- `FletStorage._object_hook`: if the dict's `"__type__"` entry equals
`"set"`, return `set(dct["values"])` (a missing `"values"` raises
`KeyError`); otherwise return the dict unchanged. -/
def objectHook (dct : List (Str × PVal)) : Except PyErr PVal :=
  if isSetTagged dct then
    match lookupF dct valuesKey with
    | none => .error (.keyError valuesKey)
    | some v => pySet v
  else .ok (.pdict dct)

mutual

/-- Decoding of a parsed JSON tree by
`json.loads(text, object_hook=FletStorage._object_hook)`: children are
decoded first (left to right, first exception wins), each object is turned
into a dict and passed through `_object_hook`. -/
def decodeJVal : JVal → Except PyErr PVal
  | .null => .ok .pnone
  | .jbool b => .ok (.pbool b)
  | .num n => .ok (.pint n)
  | .str s => .ok (.pstr s)
  | .arr xs =>
    match decodeArr xs with
    | .error e => .error e
    | .ok vs => .ok (.plist vs)
  | .obj fs =>
    match decodeObj fs with
    | .error e => .error e
    | .ok dfs => objectHook (dedupFields dfs)

def decodeArr : List JVal → Except PyErr (List PVal)
  | [] => .ok []
  | x :: xs =>
    match decodeJVal x with
    | .error e => .error e
    | .ok v =>
      match decodeArr xs with
      | .error e => .error e
      | .ok vs => .ok (v :: vs)

def decodeObj : List (Str × JVal) → Except PyErr (List (Str × PVal))
  | [] => .ok []
  | (k, x) :: fs =>
    match decodeJVal x with
    | .error e => .error e
    | .ok v =>
      match decodeObj fs with
      | .error e => .error e
      | .ok vs => .ok ((k, v) :: vs)

end

mutual

/-- A value contains no dict that `_object_hook` would mistake for an
encoded set (no dict whose `"__type__"` entry equals `"set"`). -/
def tagFree : PVal → Bool
  | .pnone => true
  | .pbool _ => true
  | .pint _ => true
  | .pstr _ => true
  | .plist xs => tagFreeList xs
  | .pset xs => tagFreeList xs
  | .pdict fs => !isSetTagged fs && tagFreeFields fs

def tagFreeList : List PVal → Bool
  | [] => true
  | x :: xs => tagFree x && tagFreeList xs

def tagFreeFields : List (Str × PVal) → Bool
  | [] => true
  | (_, v) :: fs => tagFree v && tagFreeFields fs

end

mutual

/-- A value actually constructible in Python: every set holds only hashable
elements and every dict has pairwise distinct keys. -/
def wfPy : PVal → Bool
  | .pnone => true
  | .pbool _ => true
  | .pint _ => true
  | .pstr _ => true
  | .plist xs => wfList xs
  | .pset xs => xs.all hashablePy
  | .pdict fs => decide ((fs.map (fun f => f.1)).Nodup) && wfFields fs

def wfList : List PVal → Bool
  | [] => true
  | x :: xs => wfPy x && wfList xs

def wfFields : List (Str × PVal) → Bool
  | [] => true
  | (_, v) :: fs => wfPy v && wfFields fs

end

mutual

/-- A value containing no set anywhere (so that `json.dumps` without the
`default=` hook can serialise it). -/
def setFree : PVal → Bool
  | .pnone => true
  | .pbool _ => true
  | .pint _ => true
  | .pstr _ => true
  | .plist xs => setFreeList xs
  | .pset _ => false
  | .pdict fs => setFreeFields fs

def setFreeList : List PVal → Bool
  | [] => true
  | x :: xs => setFree x && setFreeList xs

def setFreeFields : List (Str × PVal) → Bool
  | [] => true
  | (_, v) :: fs => setFree v && setFreeFields fs

end

/-- A stored payload: a JSON text identified with its parse tree, or a text
that is not valid JSON together with the parse failure detail. -/
inductive Payload where
  | valid (j : JVal)
  | invalid (detail : Str)

/-- The `ft.SharedPreferences` backend: an association list from physical
keys to payload texts. -/
abbrev Store := List (Str × Payload)

/-- Backend `get`: payload stored under the key, if any. -/
def backendGet (st : Store) (k : Str) : Option Payload :=
  (st.find? (fun e => decide (e.1 = k))).map (fun e => e.2)

/-- Backend `set`: overwrite the payload stored under the key. -/
def backendSet (st : Store) (k : Str) (p : Payload) : Store :=
  (k, p) :: st.filter (fun e => decide (¬e.1 = k))

/-- Backend `remove`: delete the key. -/
def backendRemove (st : Store) (k : Str) : Store :=
  st.filter (fun e => decide (¬e.1 = k))

/-- Backend `get_keys pfx`: all stored keys having `pfx` as a string
prefix, in backend order. -/
def backendKeys (st : Store) (pfx : Str) : List Str :=
  (st.map (fun e => e.1)).filter (fun k => pfx.isPrefixOf k)

/-- Backend `contains_key`. -/
def backendContains (st : Store) (k : Str) : Bool :=
  st.any (fun e => decide (e.1 = k))

/-- The physical key `f"{self.app_name}.{key}"`. -/
def physKey (ns k : Str) : Str := ns ++ '.' :: k

/-- `str.removeprefix` (Python): drop `pfx` when it is a prefix, otherwise
return the string unchanged. -/
def removeprefixL (pfx s : Str) : Str :=
  if pfx.isPrefixOf s then s.drop pfx.length else s

/-- The message of the `KeyError` raised by `FletStorage.get`:
`f"Key '{key}' not found in '{self.app_name}' namespace"`. -/
def notFoundMsg (key ns : Str) : Str :=
  "Key '".toList ++ key ++ "' not found in '".toList ++ ns ++ "' namespace".toList

/-- The message of the `ValueError` raised by `FletStorage.get`:
`f"Invalid JSON for key '{key}': {e}"`. -/
def invalidJsonMsg (key detail : Str) : Str :=
  "Invalid JSON for key '".toList ++ key ++ "': ".toList ++ detail

/-- `FletStorage.set`: serialise with the set-preserving encoder and store
under the namespaced key. -/
def FletStorage.set (st : Store) (ns k : Str) (v : PVal) : Store :=
  backendSet st (physKey ns k) (.valid (dumpsJ v))

/-- `FletStorage.get`: read the payload under the namespaced key; `None`
raises `KeyError`, an unparseable text raises
`ValueError(f"Invalid JSON for key '{key}': {e}")` (the only
`json.JSONDecodeError` source), and decoding errors of `_object_hook`
(`KeyError`/`TypeError`) propagate unchanged. -/
def FletStorage.get (st : Store) (ns k : Str) : Except PyErr PVal :=
  match backendGet st (physKey ns k) with
  | none => .error (.keyError (notFoundMsg k ns))
  | some (.invalid detail) => .error (.valueError (invalidJsonMsg k detail))
  | some (.valid j) => decodeJVal j

/-- `FletStorage.get_or_default`: delegate to `get`, returning the default
on any `KeyError` and re-raising everything else. -/
def FletStorage.get_or_default (st : Store) (ns k : Str) (d : PVal) :
    Except PyErr PVal :=
  match FletStorage.get st ns k with
  | .error (.keyError _) => .ok d
  | r => r

/-- `FletStorage.get_or_default` called without its `default` argument
(Python default `None`). -/
def FletStorage.getOrDefaultNone (st : Store) (ns k : Str) : Except PyErr PVal :=
  FletStorage.get_or_default st ns k .pnone

/-- `FletStorage.contains_key`. -/
def FletStorage.contains_key (st : Store) (ns k : Str) : Bool :=
  backendContains st (physKey ns k)

/-- `FletStorage.remove`. -/
def FletStorage.remove (st : Store) (ns k : Str) : Store :=
  backendRemove st (physKey ns k)

/-- `FletStorage.get_keys`: ask the backend for keys with prefix
`self.app_name` (note: without the trailing `.`), return `[]` on an empty
answer, else strip `f"{self.app_name}."` from each item. -/
def FletStorage.get_keys (st : Store) (ns : Str) : List Str :=
  if (backendKeys st ns).isEmpty then []
  else (backendKeys st ns).map (removeprefixL (ns ++ ['.']))

/-- `FletStorage.clear`: remove every key reported by `get_keys`.  The
removals are issued through `asyncio.gather` on pairwise distinct keys, so
the sequential fold is equivalent. -/
def FletStorage.clear (st : Store) (ns : Str) : Store :=
  (FletStorage.get_keys st ns).foldl (fun s k => FletStorage.remove s ns k) st

mutual

/-- `json.dumps(obj)` as called by `base.save`, without a `default=`
handler: a set anywhere raises `TypeError`. -/
def dumpsBase : PVal → Except PyErr JVal
  | .pnone => .ok .null
  | .pbool b => .ok (.jbool b)
  | .pint n => .ok (.num n)
  | .pstr s => .ok (.str s)
  | .plist xs =>
    match dumpsBaseList xs with
    | .error e => .error e
    | .ok js => .ok (.arr js)
  | .pdict fs =>
    match dumpsBaseFields fs with
    | .error e => .error e
    | .ok jfs => .ok (.obj jfs)
  | .pset _ => .error .typeError

def dumpsBaseList : List PVal → Except PyErr (List JVal)
  | [] => .ok []
  | x :: xs =>
    match dumpsBase x with
    | .error e => .error e
    | .ok j =>
      match dumpsBaseList xs with
      | .error e => .error e
      | .ok js => .ok (j :: js)

def dumpsBaseFields : List (Str × PVal) → Except PyErr (List (Str × JVal))
  | [] => .ok []
  | (k, v) :: fs =>
    match dumpsBase v with
    | .error e => .error e
    | .ok j =>
      match dumpsBaseFields fs with
      | .error e => .error e
      | .ok jfs => .ok ((k, j) :: jfs)

end

mutual

/-- `json.loads(text)` as called by `base.load`, without an `object_hook`:
every object stays a dict (built with Python's duplicate-key rule). -/
def loadsBase : JVal → PVal
  | .null => .pnone
  | .jbool b => .pbool b
  | .num n => .pint n
  | .str s => .pstr s
  | .arr xs => .plist (loadsBaseList xs)
  | .obj fs => .pdict (dedupFields (loadsBaseObj fs))

def loadsBaseList : List JVal → List PVal
  | [] => []
  | x :: xs => loadsBase x :: loadsBaseList xs

def loadsBaseObj : List (Str × JVal) → List (Str × PVal)
  | [] => []
  | (k, x) :: fs => (k, loadsBase x) :: loadsBaseObj fs

end

/-- `base.save(name, app_name, obj)`: `json.dumps` without set handling,
then a backend `set` under `f"{app_name}.{name}"`. -/
def Base.save (st : Store) (name app_name : Str) (v : PVal) :
    Except PyErr Store :=
  match dumpsBase v with
  | .error e => .error e
  | .ok j => .ok (backendSet st (physKey app_name name) (.valid j))

/-- `base.load(name, app_name)`: backend `get` then `json.loads` without an
`object_hook`.  A missing key makes `json.loads(None)` raise `TypeError`;
an unparseable text raises `json.JSONDecodeError` (a `ValueError`). -/
def Base.load (st : Store) (name app_name : Str) : Except PyErr PVal :=
  match backendGet st (physKey app_name name) with
  | none => .error .typeError
  | some (.invalid detail) => .error (.valueError detail)
  | some (.valid j) => .ok (loadsBase j)

/-- A caller-visible history of adapter operations (several namespaces over
one shared backend), used to state which logical keys were "previously set
and not removed". -/
inductive Op where
  | opSet (ns k : Str) (v : PVal)
  | opRemove (ns k : Str)

/-- The namespace an operation runs in. -/
def opNs : Op → Str
  | .opSet ns _ _ => ns
  | .opRemove ns _ => ns

/-- The logical key an operation touches. -/
def opKey : Op → Str
  | .opSet _ k _ => k
  | .opRemove _ k => k

/-- Run one adapter operation against the shared backend. -/
def applyOp (st : Store) : Op → Store
  | .opSet ns k v => FletStorage.set st ns k v
  | .opRemove ns k => FletStorage.remove st ns k

/-- Run a history of operations starting from an empty backend. -/
def runOps (ops : List Op) : Store :=
  ops.foldl applyOp []

/-- The logical keys of namespace `ns` after one more operation: a `set` in
`ns` adds the key, a `remove` in `ns` deletes it, other namespaces change
nothing. -/
def specStep (ns : Str) (acc : List Str) : Op → List Str
  | .opSet ns' k _ =>
    if ns' = ns then (if k ∈ acc then acc else acc ++ [k]) else acc
  | .opRemove ns' k =>
    if ns' = ns then acc.filter (fun x => decide (¬x = k)) else acc

/-- The logical keys previously `set` in namespace `ns` and not removed,
after a history of operations. -/
def specKeys (ops : List Op) (ns : Str) : List Str :=
  ops.foldl (specStep ns) []

/-- The relation the invariant proof maintains between the backend contents
and the logical keys of namespace `ns`: every stored key starting with `ns`
continues with the separator, and the keys physically present for `ns` are
exactly `acc`. -/
def StoreInv (ns : Str) (st : Store) (acc : List Str) : Prop :=
  (∀ pk ∈ st.map (fun e => e.1),
      ns.isPrefixOf pk = true → (ns ++ ['.']).isPrefixOf pk = true)
  ∧ (∀ k, physKey ns k ∈ st.map (fun e => e.1) ↔ k ∈ acc)

/-- One-hole contexts over JSON trees, used to state that decoding treats a
subtree the same at any nesting depth. -/
inductive Ctx where
  | hole
  | arr (pre : List JVal) (c : Ctx) (post : List JVal)
  | obj (pre : List (Str × JVal)) (k : Str) (c : Ctx) (post : List (Str × JVal))

/-- Plug a JSON tree into the hole of a context. -/
def Ctx.fill : Ctx → JVal → JVal
  | .hole, j => j
  | .arr pre c post, j => .arr (pre ++ Ctx.fill c j :: post)
  | .obj pre k c post, j => .obj (pre ++ (k, Ctx.fill c j) :: post)

/-! ### Helper lemmas about keys, prefixes and the backend -/

theorem physKey_append (ns k : Str) : physKey ns k = (ns ++ ['.']) ++ k := by
  simp [physKey]

theorem isPrefixOf_false_iff {l1 l2 : Str} :
    l1.isPrefixOf l2 = false ↔ ¬l1 <+: l2 := by
  rw [← List.isPrefixOf_iff_prefix]
  cases h : l1.isPrefixOf l2 <;> simp

theorem prefix_physKey (ns k : Str) : ns.isPrefixOf (physKey ns k) = true := by
  rw [List.isPrefixOf_iff_prefix, physKey]
  exact List.prefix_append ns _

theorem dot_prefix_physKey (ns k : Str) :
    (ns ++ ['.']).isPrefixOf (physKey ns k) = true := by
  rw [List.isPrefixOf_iff_prefix, physKey_append]
  exact List.prefix_append _ _

theorem physKey_inj {ns k1 k2 : Str} (h : physKey ns k1 = physKey ns k2) :
    k1 = k2 := by
  unfold physKey at h
  have h2 := List.append_cancel_left h
  injection h2

theorem physKey_eq_cases {ns1 ns2 k1 k2 : Str}
    (h : physKey ns1 k1 = physKey ns2 k2) : ns1 <+: ns2 ∨ ns2 <+: ns1 := by
  unfold physKey at h
  rcases List.append_eq_append_iff.1 h with ⟨a, ha, _⟩ | ⟨c, hc, _⟩
  · exact .inl ⟨a, ha.symm⟩
  · exact .inr ⟨c, hc.symm⟩

theorem prefix_physKey_cases {ns1 ns2 k : Str}
    (h : ns1 <+: physKey ns2 k) : ns1 <+: ns2 ∨ ns2 <+: ns1 := by
  have h2 : ns2 <+: physKey ns2 k := by
    rw [physKey]; exact List.prefix_append _ _
  exact List.prefix_or_prefix_of_prefix h h2

theorem physKey_ne_of_not_pfx {ns1 ns2 k1 k2 : Str}
    (h1 : ns1.isPrefixOf ns2 = false) (h2 : ns2.isPrefixOf ns1 = false) :
    physKey ns1 k1 ≠ physKey ns2 k2 := by
  intro h
  rcases physKey_eq_cases h with hp | hp
  · exact isPrefixOf_false_iff.1 h1 hp
  · exact isPrefixOf_false_iff.1 h2 hp

theorem not_pfx_physKey_of_not_pfx {ns1 ns2 k : Str}
    (h1 : ns1.isPrefixOf ns2 = false) (h2 : ns2.isPrefixOf ns1 = false) :
    ns1.isPrefixOf (physKey ns2 k) = false := by
  rw [isPrefixOf_false_iff]
  intro h
  rcases prefix_physKey_cases h with hp | hp
  · exact isPrefixOf_false_iff.1 h1 hp
  · exact isPrefixOf_false_iff.1 h2 hp

theorem removeprefixL_append (pfx rest : Str) :
    removeprefixL pfx (pfx ++ rest) = rest := by
  have h : pfx.isPrefixOf (pfx ++ rest) = true := by
    rw [List.isPrefixOf_iff_prefix]; exact List.prefix_append _ _
  simp [removeprefixL, h]

theorem removeprefixL_of_not_pfx {pfx s : Str}
    (h : pfx.isPrefixOf s = false) : removeprefixL pfx s = s := by
  simp [removeprefixL, h]

theorem backendGet_backendSet_self (st : Store) (k : Str) (p : Payload) :
    backendGet (backendSet st k p) k = some p := by
  unfold backendGet backendSet
  rw [List.find?_cons_of_pos _ (by simp)]
  rfl

theorem find?_filter_eq {α : Type} (l : List α) (p q : α → Bool)
    (himp : ∀ e, p e = false → q e = false) :
    (l.filter p).find? q = l.find? q := by
  induction l with
  | nil => rfl
  | cons e l ih =>
    cases hp : p e with
    | true =>
      rw [List.filter_cons_of_pos hp]
      cases hq : q e with
      | true => rw [List.find?_cons_of_pos _ hq, List.find?_cons_of_pos _ hq]
      | false =>
        rw [List.find?_cons_of_neg _ (by simp [hq]),
          List.find?_cons_of_neg _ (by simp [hq])]
        exact ih
    | false =>
      rw [List.filter_cons_of_neg (by simp [hp]),
        List.find?_cons_of_neg _ (by simp [himp e hp])]
      exact ih

theorem backendGet_backendSet_ne {k' k : Str} (st : Store) (p : Payload)
    (hne : k' ≠ k) : backendGet (backendSet st k p) k' = backendGet st k' := by
  unfold backendGet backendSet
  rw [List.find?_cons_of_neg _ (by simp [Ne.symm hne]),
    find?_filter_eq _ _ _ ?_]
  intro e he
  simp only [decide_eq_false_iff_not, Decidable.not_not] at he
  simp [he, Ne.symm hne]

theorem backendGet_backendRemove_ne {k' k : Str} (st : Store)
    (hne : k' ≠ k) : backendGet (backendRemove st k) k' = backendGet st k' := by
  unfold backendGet backendRemove
  rw [find?_filter_eq _ _ _ ?_]
  intro e he
  simp only [decide_eq_false_iff_not, Decidable.not_not] at he
  simp [he, Ne.symm hne]

theorem backendContains_of_backendGet {st : Store} {k : Str} {p : Payload}
    (h : backendGet st k = some p) : backendContains st k = true := by
  unfold backendGet at h
  cases hf : st.find? (fun e => decide (e.1 = k)) with
  | none => rw [hf] at h; cases h
  | some e =>
    have hpred := List.find?_some hf
    have hmem := List.mem_of_find?_eq_some hf
    unfold backendContains
    rw [List.any_eq_true]
    exact ⟨e, hmem, hpred⟩

/-! ### Round-trip of the set-preserving encoder and decoder -/

theorem insertField_of_not_mem {acc : List (Str × PVal)} {kv : Str × PVal}
    (h : kv.1 ∉ acc.map (fun f => f.1)) : insertField acc kv = acc ++ [kv] := by
  unfold insertField
  rw [if_neg]
  intro hany
  rcases List.any_eq_true.1 hany with ⟨f, hf, hdec⟩
  exact h (List.mem_map.2 ⟨f, hf, of_decide_eq_true hdec⟩)

theorem dedupFields_eq_self_aux :
    ∀ (fs acc : List (Str × PVal)),
      ((acc ++ fs).map (fun f => f.1)).Nodup →
      fs.foldl insertField acc = acc ++ fs
  | [], acc, _ => by simp
  | kv :: fs, acc, h => by
    have hins : insertField acc kv = acc ++ [kv] := by
      apply insertField_of_not_mem
      rw [List.map_append] at h
      rcases List.nodup_append.1 h with ⟨_, _, hdisj⟩
      intro hmem
      have hkv : kv.1 ∈ (kv :: fs).map (fun f => f.1) := by
        rw [List.map_cons]; exact List.mem_cons_self _ _
      exact hdisj hmem hkv
    rw [List.foldl_cons, hins, dedupFields_eq_self_aux fs (acc ++ [kv]) ?_]
    · simp
    · rw [List.append_assoc]
      simpa using h

theorem dedupFields_eq_self {fs : List (Str × PVal)}
    (h : (fs.map (fun f => f.1)).Nodup) : dedupFields fs = fs := by
  unfold dedupFields
  have := dedupFields_eq_self_aux fs [] (by simpa using h)
  simpa using this

theorem objectHook_not_tagged {fs : List (Str × PVal)}
    (h : isSetTagged fs = false) : objectHook fs = .ok (.pdict fs) := by
  simp [objectHook, h]

theorem objectHook_tag_values_pair (b : PVal) :
    objectHook (dedupFields [(tagKey, .pstr setTag), (valuesKey, b)]) = pySet b := rfl

theorem hashable_decode_dumps : ∀ x : PVal, hashablePy x = true →
    decodeJVal (dumpsJ x) = .ok x := by
  intro x hx
  cases x with
  | pnone => rfl
  | pbool b => rfl
  | pint n => rfl
  | pstr s => rfl
  | plist xs => simp [hashablePy] at hx
  | pdict fs => simp [hashablePy] at hx
  | pset xs => simp [hashablePy] at hx

theorem decodeArr_dumpsList_hashable : ∀ xs : List PVal,
    xs.all hashablePy = true → decodeArr (dumpsList xs) = .ok xs := by
  intro xs hxs
  induction xs with
  | nil => rfl
  | cons x xs ih =>
    simp only [List.all_cons, Bool.and_eq_true] at hxs
    simp [dumpsList, decodeArr, hashable_decode_dumps x hxs.1, ih hxs.2]

mutual

theorem decode_dumpsJ : ∀ v : PVal, wfPy v = true → tagFree v = true →
    decodeJVal (dumpsJ v) = .ok v
  | .pnone, _, _ => rfl
  | .pbool _, _, _ => rfl
  | .pint _, _, _ => rfl
  | .pstr _, _, _ => rfl
  | .plist xs, hw, ht => by
    have ih := decode_dumpsList xs hw ht
    simp [dumpsJ, decodeJVal, ih]
  | .pdict fs, hw, ht => by
    simp only [wfPy, Bool.and_eq_true, decide_eq_true_eq] at hw
    simp only [tagFree, Bool.and_eq_true, Bool.not_eq_true'] at ht
    have ih := decode_dumpsFields fs hw.2 ht.2
    simp [dumpsJ, decodeJVal, ih, dedupFields_eq_self hw.1,
      objectHook_not_tagged ht.1]
  | .pset xs, hw, _ => by
    have hall : xs.all hashablePy = true := hw
    have ih := decodeArr_dumpsList_hashable xs hall
    have step : decodeJVal (dumpsJ (.pset xs))
        = objectHook (dedupFields [(tagKey, .pstr setTag), (valuesKey, .plist xs)]) := by
      simp [dumpsJ, decodeJVal, decodeObj, ih]
    rw [step, objectHook_tag_values_pair]
    simp [pySet, hall]

theorem decode_dumpsList : ∀ xs : List PVal, wfList xs = true →
    tagFreeList xs = true → decodeArr (dumpsList xs) = .ok xs
  | [], _, _ => rfl
  | x :: xs, hw, ht => by
    simp only [wfList, Bool.and_eq_true] at hw
    simp only [tagFreeList, Bool.and_eq_true] at ht
    simp [dumpsList, decodeArr, decode_dumpsJ x hw.1 ht.1,
      decode_dumpsList xs hw.2 ht.2]

theorem decode_dumpsFields : ∀ fs : List (Str × PVal), wfFields fs = true →
    tagFreeFields fs = true → decodeObj (dumpsFields fs) = .ok fs
  | [], _, _ => rfl
  | (k, v) :: fs, hw, ht => by
    simp only [wfFields, Bool.and_eq_true] at hw
    simp only [tagFreeFields, Bool.and_eq_true] at ht
    simp [dumpsFields, decodeObj, decode_dumpsJ v hw.1 ht.1,
      decode_dumpsFields fs hw.2 ht.2]

end

/-- Storing then reading back through the adapter decodes the value exactly,
for every Python-constructible value with no set-shaped dict inside. -/
theorem get_set_roundtrip (st : Store) (ns k : Str) (v : PVal)
    (hw : wfPy v = true) (ht : tagFree v = true) :
    FletStorage.get (FletStorage.set st ns k v) ns k = .ok v := by
  unfold FletStorage.get FletStorage.set
  rw [backendGet_backendSet_self]
  exact decode_dumpsJ v hw ht

/-! ### Claim C1 -/

/-- C1, counterexample: the round trip is not the identity on every
encodable value.  The genuine dict `{"__type__": "set", "values": []}` is
stored by `set` and comes back from `get` as the empty set, which is not
equal to the dict that was stored. -/
theorem C1_counterexample :
    FletStorage.get
        (FletStorage.set [] ("app".toList) ("k".toList)
          (.pdict [(tagKey, .pstr setTag), (valuesKey, .plist [])]))
        ("app".toList) ("k".toList) = .ok (.pset [])
    ∧ (PVal.pset [] : PVal)
        ≠ .pdict [(tagKey, .pstr setTag), (valuesKey, .plist [])] :=
  ⟨rfl, fun h => PVal.noConfusion h⟩

/-- C1 (amended): for every Python-constructible value `v` (sets hold only
hashable elements, dict keys are distinct) that contains no dict whose
`"__type__"` entry equals `"set"`, and every key, `get(k)` after
`set(k, v)` on the same adapter returns a value equal to `v`, with sets
preserved as sets. -/
theorem C1_roundtrip_tag_free (st : Store) (ns k : Str) (v : PVal)
    (hw : wfPy v = true) (ht : tagFree v = true) :
    FletStorage.get (FletStorage.set st ns k v) ns k = .ok v :=
  get_set_roundtrip st ns k v hw ht

/-- C1, witness: the amended round trip at a concrete nested value holding
a set. -/
theorem C1_roundtrip_tag_free_witness :
    wfPy (.pdict [("a".toList, .pset [.pint 1, .pstr ['b']])]) = true
    ∧ tagFree (.pdict [("a".toList, .pset [.pint 1, .pstr ['b']])]) = true
    ∧ FletStorage.get
        (FletStorage.set [] ("app".toList) ("k".toList)
          (.pdict [("a".toList, .pset [.pint 1, .pstr ['b']])]))
        ("app".toList) ("k".toList)
      = .ok (.pdict [("a".toList, .pset [.pint 1, .pstr ['b']])]) :=
  ⟨rfl, rfl, C1_roundtrip_tag_free [] ("app".toList) ("k".toList) _ rfl rfl⟩

/-! ### Claim C4 -/

/-- C4: when the backend holds nothing under the namespaced key, `get`
raises `KeyError` with a message naming both the key and the namespace,
`get_or_default` returns the supplied default instead, and with no default
argument it returns `None`. -/
theorem C4_not_found (st : Store) (ns k : Str) (d : PVal)
    (h : backendGet st (physKey ns k) = none) :
    FletStorage.get st ns k = .error (.keyError (notFoundMsg k ns))
    ∧ k <:+: notFoundMsg k ns
    ∧ ns <:+: notFoundMsg k ns
    ∧ FletStorage.get_or_default st ns k d = .ok d
    ∧ FletStorage.getOrDefaultNone st ns k = .ok .pnone := by
  have hg : FletStorage.get st ns k = .error (.keyError (notFoundMsg k ns)) := by
    unfold FletStorage.get
    rw [h]
  refine ⟨hg, ?_, ?_, ?_, ?_⟩
  · exact ⟨"Key '".toList,
      "' not found in '".toList ++ ns ++ "' namespace".toList,
      by simp [notFoundMsg]⟩
  · exact ⟨"Key '".toList ++ k ++ "' not found in '".toList,
      "' namespace".toList, by simp [notFoundMsg]⟩
  · unfold FletStorage.get_or_default
    rw [hg]
  · unfold FletStorage.getOrDefaultNone FletStorage.get_or_default
    rw [hg]

/-- C4, witness: the missing-key behavior on the empty backend. -/
theorem C4_not_found_witness :
    backendGet [] (physKey ("app".toList) ("k".toList)) = none
    ∧ FletStorage.get [] ("app".toList) ("k".toList)
        = .error (.keyError (notFoundMsg ("k".toList) ("app".toList)))
    ∧ ("k".toList : Str) <:+: notFoundMsg ("k".toList) ("app".toList)
    ∧ ("app".toList : Str) <:+: notFoundMsg ("k".toList) ("app".toList)
    ∧ FletStorage.get_or_default [] ("app".toList) ("k".toList) (.pint 42)
        = .ok (.pint 42)
    ∧ FletStorage.getOrDefaultNone [] ("app".toList) ("k".toList) = .ok .pnone :=
  ⟨rfl, C4_not_found [] ("app".toList) ("k".toList) (.pint 42) rfl⟩

/-! ### Claim C5 -/

/-- C5: when the stored payload is not valid JSON, `get` raises
`ValueError` whose message contains both the key and the underlying decode
failure detail, and `get_or_default` re-raises that same error rather than
returning the default. -/
theorem C5_decode_error (st : Store) (ns k : Str) (d : PVal) (detail : Str)
    (h : backendGet st (physKey ns k) = some (.invalid detail)) :
    FletStorage.get st ns k = .error (.valueError (invalidJsonMsg k detail))
    ∧ detail <:+: invalidJsonMsg k detail
    ∧ k <:+: invalidJsonMsg k detail
    ∧ FletStorage.get_or_default st ns k d
        = .error (.valueError (invalidJsonMsg k detail)) := by
  have hg : FletStorage.get st ns k
      = .error (.valueError (invalidJsonMsg k detail)) := by
    unfold FletStorage.get
    rw [h]
  refine ⟨hg, ?_, ?_, ?_⟩
  · exact ⟨"Invalid JSON for key '".toList ++ k ++ "': ".toList, [],
      by simp [invalidJsonMsg]⟩
  · exact ⟨"Invalid JSON for key '".toList, "': ".toList ++ detail,
      by simp [invalidJsonMsg]⟩
  · unfold FletStorage.get_or_default
    rw [hg]

/-- C5, witness: a backend holding unparseable text under the namespaced
key. -/
theorem C5_decode_error_witness :
    backendGet [(physKey ("app".toList) ("k".toList), .invalid ("oops".toList))]
        (physKey ("app".toList) ("k".toList)) = some (.invalid ("oops".toList))
    ∧ FletStorage.get
        [(physKey ("app".toList) ("k".toList), .invalid ("oops".toList))]
        ("app".toList) ("k".toList)
      = .error (.valueError (invalidJsonMsg ("k".toList) ("oops".toList)))
    ∧ ("oops".toList : Str) <:+: invalidJsonMsg ("k".toList) ("oops".toList)
    ∧ ("k".toList : Str) <:+: invalidJsonMsg ("k".toList) ("oops".toList)
    ∧ FletStorage.get_or_default
        [(physKey ("app".toList) ("k".toList), .invalid ("oops".toList))]
        ("app".toList) ("k".toList) (.pint 42)
      = .error (.valueError (invalidJsonMsg ("k".toList) ("oops".toList))) :=
  ⟨rfl, C5_decode_error
    [(physKey ("app".toList) ("k".toList), .invalid ("oops".toList))]
    ("app".toList) ("k".toList) (.pint 42) ("oops".toList) rfl⟩

/-! ### Keys reported by get_keys -/

theorem mem_backendKeys_iff {st : Store} {pfx pk : Str} :
    pk ∈ backendKeys st pfx
      ↔ pk ∈ st.map (fun e => e.1) ∧ pfx.isPrefixOf pk = true := by
  unfold backendKeys
  rw [List.mem_filter]

theorem get_keys_mem_iff (st : Store) (ns : Str)
    (H : ∀ pk ∈ st.map (fun e => e.1),
        ns.isPrefixOf pk = true → (ns ++ ['.']).isPrefixOf pk = true) :
    ∀ k, k ∈ FletStorage.get_keys st ns ↔ physKey ns k ∈ st.map (fun e => e.1) := by
  intro k
  unfold FletStorage.get_keys
  cases hemp : (backendKeys st ns).isEmpty with
  | true =>
    simp only [if_true]
    rw [List.isEmpty_iff] at hemp
    constructor
    · intro hk; cases hk
    · intro hk
      have hmem : physKey ns k ∈ backendKeys st ns :=
        mem_backendKeys_iff.2 ⟨hk, prefix_physKey ns k⟩
      rw [hemp] at hmem
      cases hmem
    | false =>
    simp only [Bool.false_eq_true, if_false]
    constructor
    · intro hk
      rcases List.mem_map.1 hk with ⟨pk, hpk, hstrip⟩
      rcases mem_backendKeys_iff.1 hpk with ⟨hkeys, hpfx⟩
      have hdot := H pk hkeys hpfx
      rw [List.isPrefixOf_iff_prefix] at hdot
      rcases hdot with ⟨t, ht⟩
      rw [← ht, removeprefixL_append] at hstrip
      rw [← ht, hstrip, ← physKey_append] at hkeys
      exact hkeys
    · intro hk
      refine List.mem_map.2 ⟨physKey ns k, ?_, ?_⟩
      · exact mem_backendKeys_iff.2 ⟨hk, prefix_physKey ns k⟩
      · rw [physKey_append, removeprefixL_append]

/-! ### Frame lemmas for set and clear -/

theorem filter_map_filter_ne {l : Store} {K : Str} (q : Str → Bool)
    (hq : q K = false) :
    ((l.filter (fun e => decide (¬e.1 = K))).map (fun e => e.1)).filter q
      = (l.map (fun e => e.1)).filter q := by
  induction l with
  | nil => rfl
  | cons e l ih =>
    by_cases he : e.1 = K
    · rw [List.filter_cons_of_neg (by simp [he]), List.map_cons,
        List.filter_cons_of_neg (by rw [he]; simp [hq])]
      exact ih
    · rw [List.filter_cons_of_pos (by simp [he]), List.map_cons, List.map_cons]
      cases hqe : q e.1 with
      | true => rw [List.filter_cons_of_pos hqe, List.filter_cons_of_pos hqe, ih]
      | false =>
        rw [List.filter_cons_of_neg (by simp [hqe]),
          List.filter_cons_of_neg (by simp [hqe])]
        exact ih

theorem backendKeys_backendSet_of_not_pfx {st : Store} {pfx K : Str}
    (p : Payload) (h : pfx.isPrefixOf K = false) :
    backendKeys (backendSet st K p) pfx = backendKeys st pfx := by
  unfold backendKeys backendSet
  rw [List.map_cons, List.filter_cons_of_neg (by simp [h])]
  exact filter_map_filter_ne _ h

theorem get_keys_backendSet_of_not_pfx {st : Store} {ns K : Str}
    (p : Payload) (h : ns.isPrefixOf K = false) :
    FletStorage.get_keys (backendSet st K p) ns = FletStorage.get_keys st ns := by
  unfold FletStorage.get_keys
  rw [backendKeys_backendSet_of_not_pfx p h]

theorem foldl_remove_eq_filter (ns : Str) : ∀ (L : List Str) (st : Store),
    L.foldl (fun s k2 => FletStorage.remove s ns k2) st
      = st.filter (fun e => !(L.any (fun k2 => decide (e.1 = physKey ns k2))))
  | [], st => by simp
  | k :: L, st => by
    rw [List.foldl_cons, foldl_remove_eq_filter ns L _]
    unfold FletStorage.remove backendRemove
    rw [List.filter_filter]
    congr 1
    funext e
    cases hk : decide (e.1 = physKey ns k) <;>
      simp [hk, List.any_cons, decide_not]

/-! ### The backend after a history of operations (for claim C2) -/

theorem mem_keys_backendSet {st : Store} {K pk : Str} {p : Payload} :
    pk ∈ (backendSet st K p).map (fun e => e.1)
      ↔ pk = K ∨ (pk ∈ st.map (fun e => e.1) ∧ pk ≠ K) := by
  unfold backendSet
  rw [List.map_cons]
  constructor
  · intro h
    rcases List.mem_cons.1 h with h | h
    · exact .inl h
    · rcases List.mem_map.1 h with ⟨e, he, he1⟩
      rcases List.mem_filter.1 he with ⟨hest, hepred⟩
      refine .inr ⟨List.mem_map.2 ⟨e, hest, he1⟩, ?_⟩
      rw [← he1]
      exact of_decide_eq_true hepred
  · intro h
    rcases h with rfl | ⟨hmemk, hne⟩
    · exact List.mem_cons_self _ _
    · rcases List.mem_map.1 hmemk with ⟨e, hest, he1⟩
      refine List.mem_cons_of_mem _
        (List.mem_map.2 ⟨e, List.mem_filter.2 ⟨hest, ?_⟩, he1⟩)
      exact decide_eq_true (by rw [he1]; exact hne)

theorem mem_keys_backendRemove {st : Store} {K pk : Str} :
    pk ∈ (backendRemove st K).map (fun e => e.1)
      ↔ pk ∈ st.map (fun e => e.1) ∧ pk ≠ K := by
  unfold backendRemove
  constructor
  · intro h
    rcases List.mem_map.1 h with ⟨e, he, he1⟩
    rcases List.mem_filter.1 he with ⟨hest, hepred⟩
    refine ⟨List.mem_map.2 ⟨e, hest, he1⟩, ?_⟩
    rw [← he1]
    exact of_decide_eq_true hepred
  · rintro ⟨hmemk, hne⟩
    rcases List.mem_map.1 hmemk with ⟨e, hest, he1⟩
    refine List.mem_map.2 ⟨e, List.mem_filter.2 ⟨hest, ?_⟩, he1⟩
    exact decide_eq_true (by rw [he1]; exact hne)

theorem mem_if_insert {acc : List Str} {k k' : Str} :
    (k' ∈ if k ∈ acc then acc else acc ++ [k]) ↔ k' = k ∨ k' ∈ acc := by
  by_cases hk : k ∈ acc
  · rw [if_pos hk]
    constructor
    · exact .inr
    · rintro (rfl | h)
      exacts [hk, h]
  · rw [if_neg hk, List.mem_append, List.mem_singleton]
    tauto

theorem storeInv_applyOp {ns : Str} {st : Store} {acc : List Str} (op : Op)
    (hop : opNs op ≠ ns → ns.isPrefixOf (physKey (opNs op) (opKey op)) = false)
    (hinv : StoreInv ns st acc) :
    StoreInv ns (applyOp st op) (specStep ns acc op) := by
  obtain ⟨hdot, hmem⟩ := hinv
  cases op with
  | opSet ns' k v =>
    simp only [opNs, opKey] at hop
    simp only [applyOp, FletStorage.set, specStep]
    unfold StoreInv
    by_cases hns : ns' = ns
    · subst hns
      rw [if_pos rfl]
      refine ⟨?_, ?_⟩
      · intro pk hpk hpfx
        rcases mem_keys_backendSet.1 hpk with rfl | ⟨hpk', _⟩
        · exact dot_prefix_physKey _ _
        · exact hdot pk hpk' hpfx
      · intro k2
        rw [mem_keys_backendSet, mem_if_insert]
        constructor
        · rintro (h | ⟨h1, _⟩)
          · exact .inl (physKey_inj h)
          · exact .inr ((hmem k2).1 h1)
        · rintro (rfl | h)
          · exact .inl rfl
          · by_cases heq : physKey ns' k2 = physKey ns' k
            · exact .inl heq
            · exact .inr ⟨(hmem k2).2 h, heq⟩
    · have hpf := hop hns
      rw [if_neg hns]
      have hne : ∀ k2 : Str, physKey ns k2 ≠ physKey ns' k := by
        intro k2 h
        rw [← h, prefix_physKey] at hpf
        cases hpf
      refine ⟨?_, ?_⟩
      · intro pk hpk hpfx
        rcases mem_keys_backendSet.1 hpk with rfl | ⟨hpk', _⟩
        · rw [hpfx] at hpf
          cases hpf
        · exact hdot pk hpk' hpfx
      · intro k2
        rw [mem_keys_backendSet]
        constructor
        · rintro (h | ⟨h1, _⟩)
          · exact absurd h (hne k2)
          · exact (hmem k2).1 h1
        · intro h
          exact .inr ⟨(hmem k2).2 h, hne k2⟩
  | opRemove ns' k =>
    simp only [opNs, opKey] at hop
    simp only [applyOp, FletStorage.remove, specStep]
    unfold StoreInv
    by_cases hns : ns' = ns
    · subst hns
      rw [if_pos rfl]
      refine ⟨?_, ?_⟩
      · intro pk hpk hpfx
        rcases mem_keys_backendRemove.1 hpk with ⟨hpk', _⟩
        exact hdot pk hpk' hpfx
      · intro k2
        rw [mem_keys_backendRemove, List.mem_filter]
        constructor
        · rintro ⟨h1, h2⟩
          refine ⟨(hmem k2).1 h1, ?_⟩
          exact decide_eq_true fun h => h2 (by rw [h])
        · rintro ⟨h1, h2⟩
          refine ⟨(hmem k2).2 h1, ?_⟩
          intro h
          exact of_decide_eq_true h2 (physKey_inj h)
    · have hpf := hop hns
      rw [if_neg hns]
      have hne : ∀ k2 : Str, physKey ns k2 ≠ physKey ns' k := by
        intro k2 h
        rw [← h, prefix_physKey] at hpf
        cases hpf
      refine ⟨?_, ?_⟩
      · intro pk hpk hpfx
        rcases mem_keys_backendRemove.1 hpk with ⟨hpk', _⟩
        exact hdot pk hpk' hpfx
      · intro k2
        rw [mem_keys_backendRemove]
        constructor
        · rintro ⟨h1, _⟩
          exact (hmem k2).1 h1
        · intro h
          exact ⟨(hmem k2).2 h, hne k2⟩

theorem storeInv_foldl (ns : Str) : ∀ (ops : List Op) (st : Store) (acc : List Str),
    (∀ op ∈ ops, opNs op ≠ ns → ns.isPrefixOf (physKey (opNs op) (opKey op)) = false) →
    StoreInv ns st acc →
    StoreInv ns (ops.foldl applyOp st) (ops.foldl (specStep ns) acc)
  | [], st, acc, _, hinv => hinv
  | op :: ops, st, acc, hops, hinv => by
    rw [List.foldl_cons, List.foldl_cons]
    exact storeInv_foldl ns ops _ _
      (fun o ho => hops o (List.mem_cons_of_mem _ ho))
      (storeInv_applyOp op (hops op (List.mem_cons_self _ _)) hinv)

/-! ### Claim C2 -/

/-- C2, counterexample: `get_keys` queries the backend with the bare
namespace string (no trailing `"."`).  After a single `set("c", null)` in
namespace `"ab"`, the adapter for namespace `"a"` — in which nothing was
ever set — reports the foreign physical key `"ab.c"` instead of the empty
list, so the result is neither prefix-queried with `"a."` nor independent
of other namespaces' keys. -/
theorem C2_counterexample :
    FletStorage.get_keys (FletStorage.set [] ("ab".toList) ("c".toList) .pnone)
        ("a".toList) = ["ab.c".toList]
    ∧ ["ab.c".toList] ≠ ([] : List Str) :=
  ⟨rfl, by decide⟩

/-- C2 (amended): `get_keys()` asks the backend for the physical keys
whose prefix is the bare namespace string (without the separator) and
strips `namespace + "."` from each.  Provided every operation of the
history that targets a different namespace produces a physical key not
starting with this namespace string, the result contains exactly the
logical keys previously `set` in this namespace minus those removed. -/
theorem C2_get_keys_exact (ops : List Op) (ns : Str)
    (hops : ∀ op ∈ ops, opNs op ≠ ns →
      ns.isPrefixOf (physKey (opNs op) (opKey op)) = false) :
    ∀ k, k ∈ FletStorage.get_keys (runOps ops) ns ↔ k ∈ specKeys ops ns := by
  have hinv : StoreInv ns (runOps ops) (specKeys ops ns) :=
    storeInv_foldl ns ops [] [] hops
      ⟨(by intro pk h hp; cases h), (by intro k2; simp)⟩
  intro k
  rw [get_keys_mem_iff _ _ hinv.1 k]
  exact hinv.2 k

/-- C2, witness: a history touching two namespaces; after
`set("x"), set("y"), remove("x")` in `"app"` and `set("z")` in `"other"`,
`get_keys` of `"app"` contains `"y"` and not `"x"`, matching the
specification keys. -/
theorem C2_get_keys_exact_witness :
    (∀ op ∈ [Op.opSet ("app".toList) ("x".toList) .pnone,
             Op.opSet ("app".toList) ("y".toList) (.pint 2),
             Op.opRemove ("app".toList) ("x".toList),
             Op.opSet ("other".toList) ("z".toList) (.pint 3)],
      opNs op ≠ "app".toList →
        ("app".toList : Str).isPrefixOf (physKey (opNs op) (opKey op)) = false)
    ∧ (("y".toList ∈ FletStorage.get_keys
          (runOps [Op.opSet ("app".toList) ("x".toList) .pnone,
                   Op.opSet ("app".toList) ("y".toList) (.pint 2),
                   Op.opRemove ("app".toList) ("x".toList),
                   Op.opSet ("other".toList) ("z".toList) (.pint 3)])
          ("app".toList))
        ↔ "y".toList ∈ specKeys
            [Op.opSet ("app".toList) ("x".toList) .pnone,
             Op.opSet ("app".toList) ("y".toList) (.pint 2),
             Op.opRemove ("app".toList) ("x".toList),
             Op.opSet ("other".toList) ("z".toList) (.pint 3)]
            ("app".toList))
    ∧ FletStorage.get_keys
        (runOps [Op.opSet ("app".toList) ("x".toList) .pnone,
                 Op.opSet ("app".toList) ("y".toList) (.pint 2),
                 Op.opRemove ("app".toList) ("x".toList),
                 Op.opSet ("other".toList) ("z".toList) (.pint 3)])
        ("app".toList) = ["y".toList]
    ∧ specKeys
        [Op.opSet ("app".toList) ("x".toList) .pnone,
         Op.opSet ("app".toList) ("y".toList) (.pint 2),
         Op.opRemove ("app".toList) ("x".toList),
         Op.opSet ("other".toList) ("z".toList) (.pint 3)]
        ("app".toList) = ["y".toList] := by
  refine ⟨?_, ?_, rfl, rfl⟩
  · intro op hop
    fin_cases hop <;> decide
  · exact C2_get_keys_exact _ ("app".toList)
      (by intro op hop; fin_cases hop <;> decide) ("y".toList)

/-! ### Claim C3 -/

/-- C3, counterexample: with namespaces `"a"` and `"a.b"` over the same
backend, the value stored by `set("c", 3)` in namespace `"a.b"` is visible
from namespace `"a"`: `get("b.c")` returns it, and `get_keys()` lists
`"b.c"`. -/
theorem C3_counterexample :
    FletStorage.get (FletStorage.set [] ("a.b".toList) ("c".toList) (.pint 3))
        ("a".toList) ("b.c".toList) = .ok (.pint 3)
    ∧ FletStorage.get_keys
        (FletStorage.set [] ("a.b".toList) ("c".toList) (.pint 3)) ("a".toList)
      = ["b.c".toList]
    ∧ ("a".toList : Str) ≠ "a.b".toList :=
  ⟨rfl, rfl, by decide⟩

/-- C3 (amended): for two adapters over the same backend whose namespaces
are such that neither namespace string is a prefix of the other (in
particular they differ), a `set` in one namespace changes nothing that
`get` or `get_keys` can observe in the other. -/
theorem C3_namespace_isolation (st : Store) (ns1 ns2 k : Str) (v : PVal)
    (h1 : ns1.isPrefixOf ns2 = false) (h2 : ns2.isPrefixOf ns1 = false) :
    (∀ k2, FletStorage.get (FletStorage.set st ns2 k v) ns1 k2
        = FletStorage.get st ns1 k2)
    ∧ FletStorage.get_keys (FletStorage.set st ns2 k v) ns1
        = FletStorage.get_keys st ns1 := by
  constructor
  · intro k2
    unfold FletStorage.get FletStorage.set
    rw [backendGet_backendSet_ne st _ (physKey_ne_of_not_pfx h1 h2)]
  · exact get_keys_backendSet_of_not_pfx _ (not_pfx_physKey_of_not_pfx h1 h2)

/-- C3, witness: isolation of namespaces `"app1"` and `"app2"` at a
concrete key. -/
theorem C3_namespace_isolation_witness :
    ("app1".toList : Str).isPrefixOf ("app2".toList) = false
    ∧ ("app2".toList : Str).isPrefixOf ("app1".toList) = false
    ∧ FletStorage.get
        (FletStorage.set [] ("app2".toList) ("c".toList) (.pint 3))
        ("app1".toList) ("x".toList)
      = FletStorage.get [] ("app1".toList) ("x".toList)
    ∧ FletStorage.get_keys
        (FletStorage.set [] ("app2".toList) ("c".toList) (.pint 3))
        ("app1".toList)
      = FletStorage.get_keys [] ("app1".toList) :=
  ⟨by decide, by decide,
    (C3_namespace_isolation [] ("app1".toList) ("app2".toList) ("c".toList)
      (.pint 3) (by decide) (by decide)).1 ("x".toList),
    (C3_namespace_isolation [] ("app1".toList) ("app2".toList) ("c".toList)
      (.pint 3) (by decide) (by decide)).2⟩

/-! ### Claim C6 -/

/-- C6, counterexample: with namespaces `"a"` and `"a.b"` over the same
backend, `clear()` on namespace `"a"` deletes the key `"c"` that namespace
`"a.b"` had set, so a key of another namespace is not left unchanged. -/
theorem C6_counterexample :
    FletStorage.get (FletStorage.set [] ("a.b".toList) ("c".toList) (.pint 3))
        ("a.b".toList) ("c".toList) = .ok (.pint 3)
    ∧ FletStorage.get
        (FletStorage.clear
          (FletStorage.set [] ("a.b".toList) ("c".toList) (.pint 3))
          ("a".toList))
        ("a.b".toList) ("c".toList)
      = .error (.keyError (notFoundMsg ("c".toList) ("a.b".toList))) :=
  ⟨rfl, rfl⟩

/-- C6 (amended): when every backend key that starts with the namespace
continues with the separator (as is the case when no other namespace
extends this one as a string), `clear()` empties its own namespace and
leaves every key outside the namespace's prefix range — in particular
every key of a non-overlapping namespace — unchanged. -/
theorem C6_clear_scoped (st : Store) (ns : Str)
    (H : ∀ pk ∈ st.map (fun e => e.1),
        ns.isPrefixOf pk = true → (ns ++ ['.']).isPrefixOf pk = true) :
    FletStorage.get_keys (FletStorage.clear st ns) ns = []
    ∧ (∀ pk, ns.isPrefixOf pk = false →
        backendGet (FletStorage.clear st ns) pk = backendGet st pk)
    ∧ (∀ ns2 k2, ns.isPrefixOf (physKey ns2 k2) = false →
        FletStorage.get (FletStorage.clear st ns) ns2 k2
          = FletStorage.get st ns2 k2) := by
  have hclear : FletStorage.clear st ns
      = st.filter (fun e =>
          !((FletStorage.get_keys st ns).any
            (fun k2 => decide (e.1 = physKey ns k2)))) := by
    unfold FletStorage.clear
    exact foldl_remove_eq_filter ns _ st
  have hget : ∀ pk, ns.isPrefixOf pk = false →
      backendGet (FletStorage.clear st ns) pk = backendGet st pk := by
    intro pk hpk
    rw [hclear]
    unfold backendGet
    rw [find?_filter_eq _ _ _ ?_]
    intro e he
    rw [Bool.not_eq_false'] at he
    rcases List.any_eq_true.1 he with ⟨k2, hk2, hdec⟩
    have he1 : e.1 = physKey ns k2 := of_decide_eq_true hdec
    rw [decide_eq_false_iff_not]
    intro hepk
    rw [← hepk, he1, prefix_physKey] at hpk
    cases hpk
  refine ⟨?_, hget, ?_⟩
  · have hkeys : backendKeys (FletStorage.clear st ns) ns = [] := by
      unfold backendKeys
      rw [List.filter_eq_nil_iff]
      intro pk hpk
      rw [hclear] at hpk
      rcases List.mem_map.1 hpk with ⟨e, he, he1⟩
      rcases List.mem_filter.1 he with ⟨hest, hepred⟩
      intro hpfx
      have hkey : pk ∈ st.map (fun e => e.1) :=
        List.mem_map.2 ⟨e, hest, he1⟩
      have hdot := H pk hkey hpfx
      rw [List.isPrefixOf_iff_prefix] at hdot
      rcases hdot with ⟨t, ht⟩
      have hpk_phys : pk = physKey ns t := by
        rw [physKey_append, ht]
      have htmem : t ∈ FletStorage.get_keys st ns := by
        rw [get_keys_mem_iff st ns H t, ← hpk_phys]
        exact hkey
      have hany : (FletStorage.get_keys st ns).any
          (fun k2 => decide (e.1 = physKey ns k2)) = true :=
        List.any_eq_true.2 ⟨t, htmem, by rw [he1, hpk_phys]; simp⟩
      rw [hany] at hepred
      simp at hepred
    unfold FletStorage.get_keys
    rw [hkeys]
    rfl
  · intro ns2 k2 hpfx
    unfold FletStorage.get
    rw [hget _ hpfx]

/-- C6, witness: the claim's own scenario with non-overlapping namespaces
`"n1"` and `"n2"`: after `set("a",1)`, `set("b",2)` in `"n1"` and
`set("c",3)` in `"n2"`, `clear()` on `"n1"` empties `"n1"` and leaves
`"n2"`'s `"c"` intact. -/
theorem C6_clear_scoped_witness :
    (∀ pk ∈ (FletStorage.set
          (FletStorage.set (FletStorage.set [] ("n1".toList) ("a".toList) (.pint 1))
            ("n1".toList) ("b".toList) (.pint 2))
          ("n2".toList) ("c".toList) (.pint 3)).map (fun e => e.1),
        ("n1".toList : Str).isPrefixOf pk = true →
          ("n1".toList ++ ['.']).isPrefixOf pk = true)
    ∧ FletStorage.get_keys
        (FletStorage.clear
          (FletStorage.set
            (FletStorage.set (FletStorage.set [] ("n1".toList) ("a".toList) (.pint 1))
              ("n1".toList) ("b".toList) (.pint 2))
            ("n2".toList) ("c".toList) (.pint 3))
          ("n1".toList))
        ("n1".toList) = []
    ∧ FletStorage.get
        (FletStorage.clear
          (FletStorage.set
            (FletStorage.set (FletStorage.set [] ("n1".toList) ("a".toList) (.pint 1))
              ("n1".toList) ("b".toList) (.pint 2))
            ("n2".toList) ("c".toList) (.pint 3))
          ("n1".toList))
        ("n2".toList) ("c".toList)
      = FletStorage.get
          (FletStorage.set
            (FletStorage.set (FletStorage.set [] ("n1".toList) ("a".toList) (.pint 1))
              ("n1".toList) ("b".toList) (.pint 2))
            ("n2".toList) ("c".toList) (.pint 3))
          ("n2".toList) ("c".toList)
    ∧ FletStorage.get
        (FletStorage.clear
          (FletStorage.set
            (FletStorage.set (FletStorage.set [] ("n1".toList) ("a".toList) (.pint 1))
              ("n1".toList) ("b".toList) (.pint 2))
            ("n2".toList) ("c".toList) (.pint 3))
          ("n1".toList))
        ("n2".toList) ("c".toList) = .ok (.pint 3) :=
  ⟨by decide,
    (C6_clear_scoped _ ("n1".toList) (by decide)).1,
    (C6_clear_scoped _ ("n1".toList) (by decide)).2.2 ("n2".toList) ("c".toList)
      (by decide),
    rfl⟩

/-! ### Claim C9 -/

/-- C9, counterexample: the claim does not hold for every payload with a
nested occurrence of `{"__type__": "set"}` without `"values"`.  Here the
payload also carries an earlier tagged object whose `"values"` is the
number `1`, so `set(1)` raises `TypeError` first: `get` fails with
`TypeError`, not a key-lookup error, and `get_or_default` propagates it
instead of returning the default. -/
theorem C9_counterexample :
    FletStorage.get
        [(physKey ("app".toList) ("k".toList), .valid
          (.obj [("a".toList, .obj [(tagKey, .str setTag), (valuesKey, .num 1)]),
                 ("b".toList, .obj [(tagKey, .str setTag)])]))]
        ("app".toList) ("k".toList) = .error .typeError
    ∧ FletStorage.get_or_default
        [(physKey ("app".toList) ("k".toList), .valid
          (.obj [("a".toList, .obj [(tagKey, .str setTag), (valuesKey, .num 1)]),
                 ("b".toList, .obj [(tagKey, .str setTag)])]))]
        ("app".toList) ("k".toList) (.pint 7) = .error .typeError :=
  ⟨rfl, rfl⟩

/-- C9 (amended): for every key whose stored payload is the valid JSON
object `{"__type__": "set"}` without a `"values"` field — or more generally
any valid payload whose decoding fails with the key-lookup error, which
covers nested occurrences of that shape reached before any other anomaly —
`get` fails with a `KeyError` (not a decode error), and `get_or_default`
catches it and returns the default even though the key exists in the
backend. -/
theorem C9_valueless_tag (st : Store) (ns k : Str) (d : PVal) (j : JVal)
    (h : backendGet st (physKey ns k) = some (.valid j))
    (hj : j = .obj [(tagKey, .str setTag)]
      ∨ decodeJVal j = .error (.keyError valuesKey)) :
    FletStorage.get st ns k = .error (.keyError valuesKey)
    ∧ FletStorage.get_or_default st ns k d = .ok d
    ∧ FletStorage.contains_key st ns k = true := by
  have hdec : decodeJVal j = .error (.keyError valuesKey) := by
    rcases hj with rfl | hj
    · rfl
    · exact hj
  have hg : FletStorage.get st ns k = .error (.keyError valuesKey) := by
    unfold FletStorage.get
    rw [h]
    exact hdec
  refine ⟨hg, ?_, backendContains_of_backendGet h⟩
  unfold FletStorage.get_or_default
  rw [hg]

/-- C9, witness: a payload with the valueless tag nested inside another
object. -/
theorem C9_valueless_tag_witness :
    backendGet [(physKey ("app".toList) ("k".toList), .valid
          (.obj [("x".toList, .obj [(tagKey, .str setTag)])]))]
        (physKey ("app".toList) ("k".toList))
      = some (.valid (.obj [("x".toList, .obj [(tagKey, .str setTag)])]))
    ∧ decodeJVal (.obj [("x".toList, .obj [(tagKey, .str setTag)])])
      = .error (.keyError valuesKey)
    ∧ FletStorage.get
        [(physKey ("app".toList) ("k".toList), .valid
          (.obj [("x".toList, .obj [(tagKey, .str setTag)])]))]
        ("app".toList) ("k".toList) = .error (.keyError valuesKey)
    ∧ FletStorage.get_or_default
        [(physKey ("app".toList) ("k".toList), .valid
          (.obj [("x".toList, .obj [(tagKey, .str setTag)])]))]
        ("app".toList) ("k".toList) (.pint 7) = .ok (.pint 7)
    ∧ FletStorage.contains_key
        [(physKey ("app".toList) ("k".toList), .valid
          (.obj [("x".toList, .obj [(tagKey, .str setTag)])]))]
        ("app".toList) ("k".toList) = true :=
  ⟨rfl, rfl, C9_valueless_tag _ ("app".toList) ("k".toList) (.pint 7) _ rfl
    (.inr rfl)⟩

/-! ### Claim C7 -/

theorem decodeArr_congr_mid (pre post : List JVal) {a b : JVal}
    (h : decodeJVal a = decodeJVal b) :
    decodeArr (pre ++ a :: post) = decodeArr (pre ++ b :: post) := by
  induction pre with
  | nil => simp only [List.nil_append, decodeArr, h]
  | cons x pre ih => simp only [List.cons_append, decodeArr, List.append_eq, ih]

theorem decodeObj_congr_mid (pre post : List (Str × JVal)) (k2 : Str)
    {a b : JVal} (h : decodeJVal a = decodeJVal b) :
    decodeObj (pre ++ (k2, a) :: post) = decodeObj (pre ++ (k2, b) :: post) := by
  induction pre with
  | nil => simp only [List.nil_append, decodeObj, h]
  | cons x pre ih =>
    obtain ⟨xk, xv⟩ := x
    simp only [List.cons_append, decodeObj, List.append_eq, ih]

theorem decode_congr : ∀ (c : Ctx) (j1 j2 : JVal),
    decodeJVal j1 = decodeJVal j2 →
    decodeJVal (Ctx.fill c j1) = decodeJVal (Ctx.fill c j2)
  | .hole, _, _, h => h
  | .arr pre c post, j1, j2, h => by
    have ih := decode_congr c j1 j2 h
    simp only [Ctx.fill, decodeJVal, decodeArr_congr_mid pre post ih]
  | .obj pre k2 c post, j1, j2, h => by
    have ih := decode_congr c j1 j2 h
    simp only [Ctx.fill, decodeJVal, decodeObj_congr_mid pre post k2 ih]

theorem decode_tagged (fs : List (Str × JVal)) (dfs : List (Str × PVal))
    (vs : List PVal) (h1 : decodeObj fs = .ok dfs)
    (h2 : lookupF (dedupFields dfs) tagKey = some (.pstr setTag))
    (h3 : lookupF (dedupFields dfs) valuesKey = some (.plist vs))
    (h4 : vs.all hashablePy = true) :
    decodeJVal (.obj fs) = .ok (.pset vs) := by
  have htag : isSetTagged (dedupFields dfs) = true := by
    unfold isSetTagged
    rw [h2]
    simp
  simp only [decodeJVal, h1]
  simp [objectHook, htag, h3, pySet, h4]

/-- C7, counterexample: `_object_hook` converts any dict whose `"__type__"`
entry equals `"set"`, not only objects of the exact two-field shape: the
three-field object `{"__type__": "set", "values": [], "x": 1}` is also
reconstructed into a set (its extra field silently discarded). -/
theorem C7_counterexample :
    decodeJVal (.obj [(tagKey, .str setTag), (valuesKey, .arr []),
        ("x".toList, .num 1)])
      = .ok (.pset [])
    ∧ [(tagKey, JVal.str setTag), (valuesKey, JVal.arr []),
        ("x".toList, JVal.num 1)].length = 3 :=
  ⟨rfl, rfl⟩

/-- C7 (amended): on decode, every JSON object whose `"__type__"` entry
equals `"set"` — including but not limited to the exact shape
`{"__type__": "set", "values": [...]}` — is reconstructed by `set(...)`
from its `"values"` entry (here stated for an array of hashable values,
extra fields discarded), and decoding treats subtrees identically at any
nesting depth: contexts preserve equality of decodings. -/
theorem C7_set_decoding :
    (∀ (fs : List (Str × JVal)) (dfs : List (Str × PVal)) (vs : List PVal),
        decodeObj fs = .ok dfs →
        lookupF (dedupFields dfs) tagKey = some (.pstr setTag) →
        lookupF (dedupFields dfs) valuesKey = some (.plist vs) →
        vs.all hashablePy = true →
        decodeJVal (.obj fs) = .ok (.pset vs))
    ∧ (∀ (c : Ctx) (j1 j2 : JVal), decodeJVal j1 = decodeJVal j2 →
        decodeJVal (Ctx.fill c j1) = decodeJVal (Ctx.fill c j2)) :=
  ⟨decode_tagged, decode_congr⟩

/-- C7, witness: a tagged object with an extra field decodes to a set, and
two tagged objects with the same decoding stay equal when nested inside an
array context. -/
theorem C7_set_decoding_witness :
    decodeObj [(tagKey, .str setTag), (valuesKey, .arr [.num 1]),
        ("x".toList, .null)]
      = .ok [(tagKey, .pstr setTag), (valuesKey, .plist [.pint 1]),
        ("x".toList, .pnone)]
    ∧ decodeJVal (.obj [(tagKey, .str setTag), (valuesKey, .arr [.num 1]),
        ("x".toList, .null)])
      = .ok (.pset [.pint 1])
    ∧ decodeJVal (Ctx.fill (.arr [] .hole [])
        (.obj [(tagKey, .str setTag), (valuesKey, .arr [])]))
      = decodeJVal (Ctx.fill (.arr [] .hole [])
        (.obj [(valuesKey, .arr []), (tagKey, .str setTag)])) :=
  ⟨rfl,
    C7_set_decoding.1 _ _ _ rfl rfl rfl rfl,
    C7_set_decoding.2 (.arr [] .hole []) _ _ rfl⟩

/-! ### Claim C8 -/

mutual

theorem dumpsBase_eq_dumpsJ : ∀ v : PVal, setFree v = true →
    dumpsBase v = .ok (dumpsJ v)
  | .pnone, _ => rfl
  | .pbool _, _ => rfl
  | .pint _, _ => rfl
  | .pstr _, _ => rfl
  | .plist xs, hs => by
    have ih := dumpsBaseList_eq xs hs
    simp [dumpsBase, dumpsJ, ih]
  | .pdict fs, hs => by
    have ih := dumpsBaseFields_eq fs hs
    simp [dumpsBase, dumpsJ, ih]
  | .pset _, hs => by simp [setFree] at hs

theorem dumpsBaseList_eq : ∀ xs : List PVal, setFreeList xs = true →
    dumpsBaseList xs = .ok (dumpsList xs)
  | [], _ => rfl
  | x :: xs, hs => by
    simp only [setFreeList, Bool.and_eq_true] at hs
    simp [dumpsBaseList, dumpsList, dumpsBase_eq_dumpsJ x hs.1,
      dumpsBaseList_eq xs hs.2]

theorem dumpsBaseFields_eq : ∀ fs : List (Str × PVal), setFreeFields fs = true →
    dumpsBaseFields fs = .ok (dumpsFields fs)
  | [], _ => rfl
  | (k2, v) :: fs, hs => by
    simp only [setFreeFields, Bool.and_eq_true] at hs
    simp [dumpsBaseFields, dumpsFields, dumpsBase_eq_dumpsJ v hs.1,
      dumpsBaseFields_eq fs hs.2]

end

mutual

theorem loadsBase_dumpsJ : ∀ v : PVal, wfPy v = true → setFree v = true →
    loadsBase (dumpsJ v) = v
  | .pnone, _, _ => rfl
  | .pbool _, _, _ => rfl
  | .pint _, _, _ => rfl
  | .pstr _, _, _ => rfl
  | .plist xs, hw, hs => by
    simp [dumpsJ, loadsBase, loadsBaseList_dumpsList xs hw hs]
  | .pdict fs, hw, hs => by
    simp only [wfPy, Bool.and_eq_true, decide_eq_true_eq] at hw
    have ih := loadsBaseObj_dumpsFields fs hw.2 hs
    simp [dumpsJ, loadsBase, ih, dedupFields_eq_self hw.1]
  | .pset _, _, hs => by simp [setFree] at hs

theorem loadsBaseList_dumpsList : ∀ xs : List PVal, wfList xs = true →
    setFreeList xs = true → loadsBaseList (dumpsList xs) = xs
  | [], _, _ => rfl
  | x :: xs, hw, hs => by
    simp only [wfList, Bool.and_eq_true] at hw
    simp only [setFreeList, Bool.and_eq_true] at hs
    simp [dumpsList, loadsBaseList, loadsBase_dumpsJ x hw.1 hs.1,
      loadsBaseList_dumpsList xs hw.2 hs.2]

theorem loadsBaseObj_dumpsFields : ∀ fs : List (Str × PVal), wfFields fs = true →
    setFreeFields fs = true → loadsBaseObj (dumpsFields fs) = fs
  | [], _, _ => rfl
  | (k2, v) :: fs, hw, hs => by
    simp only [wfFields, Bool.and_eq_true] at hw
    simp only [setFreeFields, Bool.and_eq_true] at hs
    simp [dumpsFields, loadsBaseObj, loadsBase_dumpsJ v hw.1 hs.1,
      loadsBaseObj_dumpsFields fs hw.2 hs.2]

end

/-- C8, counterexample: the free-function variant does not handle set-like
collections identically.  The adapter stores and retrieves the empty set,
while `base.save` on the same value raises `TypeError` (its `json.dumps`
has no `default=` handler); moreover `base.load` of a payload written by
the adapter's `set` yields the tagged dict, not a set. -/
theorem C8_counterexample :
    FletStorage.get (FletStorage.set [] ("app".toList) ("k".toList) (.pset []))
        ("app".toList) ("k".toList) = .ok (.pset [])
    ∧ Base.save [] ("k".toList) ("app".toList) (.pset []) = .error .typeError
    ∧ Base.load (FletStorage.set [] ("app".toList) ("k".toList) (.pset []))
        ("k".toList) ("app".toList)
      = .ok (.pdict [(tagKey, .pstr setTag), (valuesKey, .plist [])]) :=
  ⟨rfl, rfl, rfl⟩

/-- C8 (amended): for every Python-constructible value containing neither a
set-like collection nor a set-shaped dict, the free-function variant and
the adapter agree: `save` stores exactly the payload the adapter's `set`
stores, and decoding it back by `load` returns the value, the same result
as the adapter's `set` followed by `get`. -/
theorem C8_base_variant (st : Store) (ns k : Str) (v : PVal)
    (hw : wfPy v = true) (ht : tagFree v = true) (hs : setFree v = true) :
    Base.save st k ns v = .ok (backendSet st (physKey ns k) (.valid (dumpsJ v)))
    ∧ Base.load (backendSet st (physKey ns k) (.valid (dumpsJ v))) k ns = .ok v
    ∧ FletStorage.get (FletStorage.set st ns k v) ns k = .ok v := by
  refine ⟨?_, ?_, get_set_roundtrip st ns k v hw ht⟩
  · unfold Base.save
    rw [dumpsBase_eq_dumpsJ v hs]
  · unfold Base.load
    rw [backendGet_backendSet_self]
    show Except.ok (loadsBase (dumpsJ v)) = Except.ok v
    rw [loadsBase_dumpsJ v hw hs]

/-- C8, witness: agreement of the two variants at a concrete set-free
dict. -/
theorem C8_base_variant_witness :
    wfPy (.pdict [("a".toList, .pint 1)]) = true
    ∧ tagFree (.pdict [("a".toList, .pint 1)]) = true
    ∧ setFree (.pdict [("a".toList, .pint 1)]) = true
    ∧ Base.save [] ("k".toList) ("app".toList) (.pdict [("a".toList, .pint 1)])
      = .ok (backendSet [] (physKey ("app".toList) ("k".toList))
          (.valid (dumpsJ (.pdict [("a".toList, .pint 1)]))))
    ∧ Base.load (backendSet [] (physKey ("app".toList) ("k".toList))
          (.valid (dumpsJ (.pdict [("a".toList, .pint 1)]))))
        ("k".toList) ("app".toList)
      = .ok (.pdict [("a".toList, .pint 1)])
    ∧ FletStorage.get
        (FletStorage.set [] ("app".toList) ("k".toList)
          (.pdict [("a".toList, .pint 1)]))
        ("app".toList) ("k".toList)
      = .ok (.pdict [("a".toList, .pint 1)]) := by
  refine ⟨rfl, rfl, rfl, ?_⟩
  exact C8_base_variant [] ("app".toList) ("k".toList)
    (.pdict [("a".toList, .pint 1)]) rfl rfl rfl

/-! ### Claim C10 -/

/-- C10: `get_keys` performs no filtering beyond the prefix strip: any key
the backend returns for the queried prefix that does not start with
`namespace + "."` is passed through unchanged rather than excluded. -/
theorem C10_no_filtering (st : Store) (ns pk : Str)
    (hmem : pk ∈ backendKeys st ns)
    (hpfx : (ns ++ ['.']).isPrefixOf pk = false) :
    pk ∈ FletStorage.get_keys st ns := by
  unfold FletStorage.get_keys
  have hne : (backendKeys st ns).isEmpty = false := by
    cases h : backendKeys st ns with
    | nil => rw [h] at hmem; cases hmem
    | cons a l => exact List.isEmpty_cons
  rw [hne]
  simp only [Bool.false_eq_true, if_false]
  exact List.mem_map.2 ⟨pk, hmem, removeprefixL_of_not_pfx hpfx⟩

/-- C10, witness: a backend key `"ab"` matches the queried prefix `"a"`
but does not start with `"a."`; `get_keys` of namespace `"a"` returns it
unchanged. -/
theorem C10_no_filtering_witness :
    ("ab".toList : Str) ∈ backendKeys [("ab".toList, .valid .null)] ("a".toList)
    ∧ ("a".toList ++ ['.']).isPrefixOf ("ab".toList) = false
    ∧ ("ab".toList : Str)
        ∈ FletStorage.get_keys [("ab".toList, .valid .null)] ("a".toList) :=
  ⟨by decide, by decide,
    C10_no_filtering [("ab".toList, .valid .null)] ("a".toList) ("ab".toList)
      (by decide) (by decide)⟩
